import Mathlib

/-!
Verification of the TalentScout hiring-assistant application.

The development shallowly embeds the Python sources:
  * `app/utils/validators.py`  — end-keyword detection, tech-stack parsing,
    candidate-profile validation;
  * `app/utils/questions.py`   — seeded pseudo-random technical-question
    sampling over mutable module-level question banks;
  * `streamlit_app.py`         — the per-turn conversation state machine.

Machine-level details (CPython's Mersenne Twister, CPython `float(...)`
string parsing restricted to exact decimal values, ASCII `str.lower`/
`str.strip`) are modelled explicitly; external libraries
(`email_validator`, `phonenumbers`, the LLM client, the VADER sentiment
analyzer) are abstracted as parameters of the state machine.
-/

set_option maxRecDepth 100000

namespace TalentScout

/-! ## ASCII models of Python string primitives -/

/-- Model of Python `str` whitespace (ASCII): the characters removed by
`str.strip()` with no argument. -/
def isPySpace (c : Char) : Bool :=
  c = ' ' || c = '\t' || c = '\n' || c = '\x0d' || c = '\x0b' || c = '\x0c'

/-- Model of Python `str.strip()` on the character list: drop leading and
trailing whitespace. -/
def stripChars (cs : List Char) : List Char :=
  ((cs.dropWhile isPySpace).reverse.dropWhile isPySpace).reverse

/-- ASCII model of Python `str.lower()` on one character: shift an upper
case letter down into lower case, leave everything else alone. -/
def pyToLowerChar (c : Char) : Char :=
  if 'A' ≤ c ∧ c ≤ 'Z' then Char.ofNat (c.toNat + 32) else c

/-- ASCII model of Python `str.lower()` on the character list. -/
def lowerChars (cs : List Char) : List Char := cs.map pyToLowerChar

/-- `str.strip()` at the `String` level. -/
def pyStrip (s : String) : String := String.mk (stripChars s.data)

/-- `str.lower()` at the `String` level. -/
def pyLower (s : String) : String := String.mk (lowerChars s.data)

/-! ## `validators.py`: `is_end_keyword` and `parse_tech_stack` -/

/-- `END_WORDS_DEFAULT` from `validators.py` (also `END_KEYWORDS` in
`streamlit_app.py`, the same six words). -/
def END_WORDS_DEFAULT : List String := ["quit", "exit", "bye", "goodbye", "stop", "end"]

/-- `is_end_keyword`: membership of the stripped, lowercased text in the
end-word set. -/
def is_end_keyword (text : String) : Bool :=
  END_WORDS_DEFAULT.contains (pyLower (pyStrip text))

/-- `raw.replace("/", ",").replace("|", ",")`: both separator characters
become commas. -/
def replaceSeps (cs : List Char) : List Char :=
  cs.map (fun c => if c = '/' then ',' else if c = '|' then ',' else c)

/-- Python `str.split(",")`: split into (possibly empty) comma-separated
fields; the empty string yields one empty field. -/
def splitComma : List Char → List (List Char)
  | [] => [[]]
  | c :: cs =>
    if c = ',' then [] :: splitComma cs
    else
      match splitComma cs with
      | t :: ts => (c :: t) :: ts
      | [] => [[c]]

/-- The alias table of `parse_tech_stack`. -/
def aliasPairs : List (List Char × List Char) :=
  [("js".data, "javascript".data),
   ("py".data, "python".data),
   ("ts".data, "typescript".data),
   ("pgsql".data, "postgresql".data),
   ("postgre".data, "postgresql".data),
   ("mongo".data, "mongodb".data),
   ("tf".data, "tensorflow".data),
   ("sklearn".data, "scikit-learn".data)]

/-- `aliases.get(x, x)`: replace a token by its canonical name when it is an
alias key, otherwise keep it. -/
def aliasMap (t : List Char) : List Char := (aliasPairs.lookup t).getD t

/-- The de-duplication loop of `parse_tech_stack`: keep the first occurrence
of each token (`seen` set plus ordered `result` list). -/
def dedupAux (seen : List (List Char)) : List (List Char) → List (List Char)
  | [] => []
  | x :: xs => if x ∈ seen then dedupAux seen xs else x :: dedupAux (x :: seen) xs

/-- `parse_tech_stack` on character lists, translated clause-for-clause from
`validators.py`: replace `/` and `|` by commas, split on commas, keep tokens
whose strip is non-empty as their stripped lowercase form, apply the alias
table, de-duplicate keeping first occurrences. -/
def parseTechStackCore (cs : List Char) : List (List Char) :=
  let items := ((splitComma (replaceSeps cs)).filter
      (fun t => stripChars t ≠ [])).map (fun t => lowerChars (stripChars t))
  let normalized := items.map aliasMap
  dedupAux [] normalized

/-- `parse_tech_stack` at the `String` level. -/
def parse_tech_stack (raw : String) : List String :=
  (parseTechStackCore raw.data).map String.mk

/-- Join character-list tokens with the separator `", "`. -/
def joinTokens : List (List Char) → List Char
  | [] => []
  | [t] => t
  | t :: ts => t ++ ',' :: ' ' :: joinTokens ts

/-- Model of `", ".join(xs)` (used both by the spec's idempotence claim and
by `collect_candidate_info` when storing the tech stack). -/
def joinCommaSpace (xs : List String) : String :=
  String.mk (joinTokens (xs.map String.data))

/-- The shape of every token `parse_tech_stack` emits: trimmed, lower case,
fixed by the alias table, non-empty, and free of the three separator
characters. -/
def normalToken (t : List Char) : Prop :=
  stripChars t = t ∧ lowerChars t = t ∧ aliasMap t = t ∧ t ≠ [] ∧
    ∀ c ∈ t, c ≠ ',' ∧ c ≠ '/' ∧ c ≠ '|'

instance (t : List Char) : Decidable (normalToken t) := by
  unfold normalToken
  infer_instance

/-- Split on any of the three separator characters directly — the spec's
description of tokenisation ("splits on comma, slash, or pipe"). -/
def splitAnySep : List Char → List (List Char)
  | [] => [[]]
  | c :: cs =>
    if c = ',' || c = '/' || c = '|' then [] :: splitAnySep cs
    else
      match splitAnySep cs with
      | t :: ts => (c :: t) :: ts
      | [] => [[c]]

/-- Tech-stack parsing as the spec words it: split on comma/slash/pipe, trim
and lowercase each token, alias-map, drop empty tokens, de-duplicate
preserving first-seen order. -/
def specParseTechStack (raw : String) : List String :=
  let norm := (splitAnySep raw.data).map (fun t => aliasMap (lowerChars (stripChars t)))
  ((dedupAux [] (norm.filter (fun t => t ≠ []))).map String.mk)

/-! ## CPython `float(str)` model (exact values)

`streamlit_app.py` and `validators.py` call `float(text)` on user input.
We model the accepted string grammar of CPython's float constructor
(optional sign; `inf`/`infinity`/`nan` case-insensitively; otherwise a
decimal number with optional fractional part and exponent, underscores
permitted strictly between digits) over ASCII, with exact rational values
for finite results (binary64 rounding is not modelled). -/

/-- The value classes of a Python float that this application can observe:
an exact finite value, `nan`, or a signed infinity. -/
inductive PyFloat where
  | finite (q : ℚ)
  | nan
  | inf
  | ninf
deriving DecidableEq, Repr

/-- IEEE `<` on the modelled floats: every comparison against `nan` is
false; `-inf` is below and `inf` above every finite value. -/
def pyLt : PyFloat → PyFloat → Bool
  | .nan, _ => false
  | _, .nan => false
  | .finite a, .finite b => decide (a < b)
  | .finite _, .inf => true
  | .finite _, .ninf => false
  | .inf, _ => false
  | .ninf, .ninf => false
  | .ninf, _ => true

/-- Read a digit run in which underscores may appear strictly between
digits (`1_000`): returns the digits read (underscores removed) and the
unconsumed remainder.  A malformed underscore is left unconsumed, which
makes the whole parse fail downstream exactly as CPython rejects it. -/
def readDigitsU : List Char → List Char × List Char
  | [] => ([], [])
  | c :: cs =>
    if c.isDigit then
      match cs with
      | '_' :: c2 :: cs2 =>
        if c2.isDigit then
          let (ds, rest) := readDigitsU (c2 :: cs2)
          (c :: ds, rest)
        else ([c], '_' :: c2 :: cs2)
      | rest =>
        let (ds, rest2) := readDigitsU rest
        (c :: ds, rest2)
    else ([], c :: cs)

/-- Numeric value of an ASCII digit string. -/
def digitsToNat (ds : List Char) : Nat :=
  ds.foldl (fun a c => a * 10 + (c.toNat - 48)) 0

/-- Parse the decimal part of a float literal
(`digits [. digits] [e [sign] digits]`), requiring at least one mantissa
digit, and return its exact rational value. -/
def parseDecimal (cs : List Char) : Option ℚ :=
  let (ip, r1) := readDigitsU cs
  let (fp, r2) :=
    match r1 with
    | '.' :: rest => readDigitsU rest
    | _ => ([], r1)
  if ip = [] ∧ fp = [] then none
  else
    let num := digitsToNat ip * 10 ^ fp.length + digitsToNat fp
    let den := 10 ^ fp.length
    match r2 with
    | 'e' :: rest | 'E' :: rest =>
      let (eneg, rest2) :=
        match rest with
        | '+' :: r => (false, r)
        | '-' :: r => (true, r)
        | r => (false, r)
      let (eds, r3) := readDigitsU rest2
      if eds = [] ∨ r3 ≠ [] then none
      else if eneg then some (mkRat num (den * 10 ^ digitsToNat eds))
      else some (mkRat (num * 10 ^ digitsToNat eds) den)
    | [] => some (mkRat num den)
    | _ => none

/-- Model of CPython `float(s)` on a string: strip whitespace, read an
optional sign, then either one of the special words or a decimal literal. -/
def pyFloatOfString (s : String) : Option PyFloat :=
  let cs := stripChars s.data
  let (neg, rest) :=
    match cs with
    | '+' :: r => (false, r)
    | '-' :: r => (true, r)
    | r => (false, r)
  let low := lowerChars rest
  if low = "inf".data ∨ low = "infinity".data then
    some (if neg then .ninf else .inf)
  else if low = "nan".data then some .nan
  else
    match parseDecimal rest with
    | some q => some (.finite (if neg then -q else q))
    | none => none

/-- Does the value denote a real number lying in the closed interval
`[0, 60]`?  (`nan` and the infinities do not.) -/
def isNumberInClosed0to60 : PyFloat → Bool
  | .finite q => decide (0 ≤ q) && decide (q ≤ 60)
  | _ => false

/-- The range test shared by the collection step (`streamlit_app.py` lines
110-111) and the pydantic `_years` validator: reject iff `v < 0 or v > 60`
under IEEE comparison. -/
def yearsInRange (v : PyFloat) : Bool :=
  !(pyLt v (.finite 0)) && !(pyLt (.finite 60) v)

/-- The years branch of `collect_candidate_info`: the (already stripped)
text is accepted iff it parses as a float whose range test passes. -/
def yearsCollectAccepts (text : String) : Bool :=
  match pyFloatOfString text with
  | some v => yearsInRange v
  | none => false

/-- `CandidateProfile.from_raw`'s treatment of `years_experience`: parse the
stored text (default `"0"`), mapping unparseable input to the sentinel
`-1.0`. -/
def yearsFromRaw (stored : Option String) : PyFloat :=
  match pyFloatOfString (pyStrip (stored.getD "0")) with
  | some v => v
  | none => .finite (-1)

/-! ## CPython Mersenne Twister (`random.Random(42)`)

`generate_question_set` creates `random.Random(42)` on every call and uses
only `shuffle`, which draws via `_randbelow`/`getrandbits` from the
MT19937 generator.  The generator is embedded exactly: 32-bit words are
naturals reduced modulo `2^32`. -/

/-- Truncation to a 32-bit word. -/
def u32 (n : Nat) : Nat := n % 4294967296

/-- MT19937 tempering of one output word. -/
def mtTemper (y : Nat) : Nat :=
  let y1 := y ^^^ (y >>> 11)
  let y2 := y1 ^^^ ((y1 <<< 7) &&& 2636928640)
  let y3 := y2 ^^^ ((y2 <<< 15) &&& 4022730752)
  y3 ^^^ (y3 >>> 18)

/-- Continue with `n` itself; the dead conditional only makes the kernel
evaluate `n` to a literal before the continuation runs, so that the long
carry chains of the seeding passes are reduced iteratively. -/
def forceNat {α : Type} (n : Nat) (k : Nat → α) : α :=
  if n = 0 then k n else k n

/-- A sequential in-place pass over the state array: each cell is rewritten
from its previous (already rewritten) neighbour `c`, its own old value `x`,
and its index; accumulates the rewritten cells in reverse. -/
def seqPassAux (f : Nat → Nat → Nat → Nat) : Nat → Nat → List Nat → List Nat → List Nat × Nat
  | _, c, acc, [] => (acc.reverse, c)
  | i, c, acc, x :: xs =>
    forceNat (f c x i) (fun y => seqPassAux f (i + 1) y (y :: acc) xs)

/-- The sequential pass: returns the rewritten cells in order and the last
value written (the carry after the pass). -/
def seqPass (f : Nat → Nat → Nat → Nat) (i c : Nat) (xs : List Nat) : List Nat × Nat :=
  seqPassAux f i c [] xs

/-- `init_genrand(s)`: the base state initialisation of MT19937. -/
def initGenrand (s : Nat) : List Nat :=
  (u32 s) ::
    (seqPass (fun c _ i => u32 (1812433253 * (c ^^^ (c >>> 30)) + i)) 1 (u32 s)
      (List.replicate 623 0)).1

/-- Absorption step of the first `init_by_array` loop, specialised to the
single-word key `[42]` (the key of integer seed 42; the key index `j` is 0
at every step for a one-word key). -/
def fA (c x _i : Nat) : Nat :=
  u32 ((x ^^^ u32 ((c ^^^ (c >>> 30)) * 1664525)) + 42)

/-- Step of the second `init_by_array` loop; the `- i` is 32-bit wrapping
subtraction. -/
def fB (c x i : Nat) : Nat :=
  u32 ((x ^^^ u32 ((c ^^^ (c >>> 30)) * 1566083941)) + (4294967296 - i))

/-- The MT19937 state produced by seeding with the integer 42
(`init_by_array([42])`): `init_genrand(19650218)`, one absorption sweep of
624 steps, one mixing sweep of 623 steps (each sweep wrapping from cell 623
back to cell 1 after copying cell 623 into cell 0), and finally
`mt[0] = 0x80000000`. -/
def mtSeedState42 : List Nat :=
  match initGenrand 19650218 with
  | m0 :: tail =>
    let (tail1, last1) := seqPass fA 1 m0 tail
    match tail1 with
    | m1 :: rest1 =>
      let m1a := fA last1 m1 1
      let (rest2, last2) := seqPass fB 2 m1a rest1
      let m1b := fB last2 m1a 1
      2147483648 :: m1b :: rest2
    | [] => []
  | [] => []

/-- Combine the top bit of `a` with the low 31 bits of `b`. -/
def mtY (a b : Nat) : Nat := (a &&& 2147483648) ||| (b &&& 2147483647)

/-- The twist of one combined word. -/
def mtTw (y : Nat) : Nat := (y >>> 1) ^^^ (if y % 2 = 1 then 2567483615 else 0)

/-- The feedback tail of the state regeneration: cell `kk` (for
`kk ≥ 227`) xors the freshly generated cell `kk - 227` with the twisted
combination `y`.  `front`/`backRev` form a queue of fresh cells lagging 227
behind the cell being produced. -/
def twistPartB (front backRev : List Nat) : List Nat → List Nat
  | [] => []
  | y :: ys =>
    match front with
    | f :: front2 =>
      let v := f ^^^ mtTw y
      v :: twistPartB front2 (v :: backRev) ys
    | [] =>
      match backRev.reverse with
      | f :: front2 =>
        let v := f ^^^ mtTw y
        v :: twistPartB front2 [v] ys
      | [] => []

/-- Regenerate all 624 state words (the in-place block generation of
`genrand_uint32`): cells below 227 read only old state; later cells read
the fresh cell 227 positions back, and the last combination pairs old cell
623 with fresh cell 0. -/
def mtTwist (old : List Nat) : List Nat :=
  let partA := List.zipWith3 (fun far a b => far ^^^ mtTw (mtY a b))
    (old.drop 397) old (old.drop 1)
  let new0 := partA.headD 0
  let ysB := List.zipWith mtY (old.drop 227) ((old.drop 228) ++ [new0])
  partA ++ twistPartB partA [] ysB

/-- Generator state: the 624 words and the output index `mti`. -/
structure MTState where
  mt : List Nat
  mti : Nat
deriving Repr, DecidableEq

/-- `random.Random(42)`'s freshly seeded state (`mti = 624` forces a twist
on the first draw). -/
def mtFresh42 : MTState := ⟨mtSeedState42, 624⟩

/-- `genrand_uint32`: twist when the block is exhausted, then temper the
next word. -/
def genrandUint32 (s : MTState) : Nat × MTState :=
  if s.mti ≥ 624 then
    let m := mtTwist s.mt
    (mtTemper (m.headD 0), ⟨m, 1⟩)
  else
    (mtTemper (s.mt.getD s.mti 0), ⟨s.mt, s.mti + 1⟩)

/-- `getrandbits(k)` for `1 ≤ k ≤ 32`: the top `k` bits of one word. -/
def getrandbits (k : Nat) (s : MTState) : Nat × MTState :=
  let (u, s') := genrandUint32 s
  (u >>> (32 - k), s')

/-- Halving recursion for `bit_length`, structural on a fuel that is always
sufficient (`n + 1` halvings reach zero). -/
def bitLengthFuel : Nat → Nat → Nat
  | 0, _ => 0
  | fuel + 1, n => if n = 0 then 0 else bitLengthFuel fuel (n / 2) + 1

/-- Python `int.bit_length`. -/
def bitLength (n : Nat) : Nat := bitLengthFuel (n + 1) n

/-- `Random._randbelow`'s rejection loop, with fuel (each iteration rejects
with probability below one half; the fuel is never exhausted in any
evaluation below). -/
def randbelowFuel : Nat → Nat → MTState → Nat × MTState
  | 0, _, s => (0, s)
  | fuel + 1, n, s =>
    let (r, s') := getrandbits (bitLength n) s
    if r < n then (r, s') else randbelowFuel fuel n s'

/-- `Random._randbelow(n)`. -/
def randbelow (n : Nat) (s : MTState) : Nat × MTState := randbelowFuel 10000 n s

/-- Exchange the cells at positions `i` and `j` (in range in every use, as
in Python's `shuffle`). -/
def listSwap (i j : Nat) (xs : List α) : List α :=
  match xs.get? i, xs.get? j with
  | some a, some b => (xs.set i b).set j a
  | _, _ => xs

/-- The Fisher-Yates loop of `random.shuffle`: for
`i = n-1, n-2, ..., 1`, draw `j = _randbelow(i+1)` and swap cells `i`
and `j`. -/
def shuffleGo : Nat → List α → MTState → List α × MTState
  | 0, xs, s => (xs, s)
  | k + 1, xs, s =>
    let (j, s') := randbelow (k + 2) s
    shuffleGo k (listSwap (k + 1) j xs) s'

/-- `rnd.shuffle(xs)` as a function from the list and generator state. -/
def pyShuffle (xs : List α) (s : MTState) : List α × MTState :=
  shuffleGo (xs.length - 1) xs s

/-! ## `questions.py`

The module-level banks `TECH_QUESTIONS` and `GENERIC_QUESTIONS` are
mutable: `rnd.shuffle(bank)` permutes the looked-up list object in place,
so bank state must be threaded through calls. -/

/-- The `TECH_QUESTIONS` dictionary. -/
def TECH_QUESTIONS : List (String × List String) :=
  [("python",
    ["Explain list vs tuple and when to use each.",
     "What are generators? Show a simple example.",
     "How does GIL impact multithreading in Python?",
     "Describe context managers and the 'with' statement."]),
   ("django",
    ["Explain Django ORM querysets and lazy evaluation.",
     "How do middleware work in Django?",
     "What are class-based views vs function-based views?",
     "How do you manage migrations and schema changes?"]),
   ("flask",
    ["How do blueprints help structure Flask apps?",
     "How would you handle configuration per environment?",
     "Explain request context vs application context."]),
   ("javascript",
    ["Explain event loop and microtasks in JS.",
     "Difference between var, let, and const.",
     "What is closure and a practical use-case?"]),
   ("react",
    ["When do you use useMemo and useCallback?",
     "Explain reconciliation and keys in lists.",
     "How would you manage global state?"]),
   ("node",
    ["Explain Node's event-driven architecture.",
     "How do streams work in Node.js?",
     "What is cluster mode and when to use it?"]),
   ("postgresql",
    ["Explain indexes and when they might hurt performance.",
     "How do transactions and isolation levels work?",
     "What is a CTE and when to use it?"]),
   ("mongodb",
    ["How do you design schemas in a document DB?",
     "Explain aggregation pipeline basics.",
     "When would you prefer embedded vs referenced docs?"]),
   ("docker",
    ["Difference between image and container.",
     "How do multi-stage builds reduce image size?",
     "How do you persist data across container restarts?"]),
   ("kubernetes",
    ["Explain deployments vs statefulsets.",
     "How does a service route traffic to pods?",
     "What are liveness and readiness probes?"]),
   ("tensorflow",
    ["Explain eager execution vs graph mode.",
     "How do you prevent overfitting in deep nets?",
     "What is transfer learning and when to use it?"]),
   ("pytorch",
    ["Explain autograd and computational graphs.",
     "How do you manage device placement (CPU/GPU)?",
     "Describe DataLoader and Dataset abstractions."]),
   ("scikit-learn",
    ["How do you handle class imbalance?",
     "Difference between bagging and boosting.",
     "What is cross-validation and why is it important?"])]

/-- The `GENERIC_QUESTIONS` list. -/
def GENERIC_QUESTIONS : List String :=
  ["Describe a challenging bug you solved and the impact.",
   "How do you ensure code quality and readability?",
   "Explain a system you designed end-to-end."]

/-- The current contents of the two module-level question banks. -/
structure QBanks where
  techQuestions : List (String × List String)
  generic : List String
deriving Repr, DecidableEq

/-- The banks as written in the module (the state at import time). -/
def initialBanks : QBanks := ⟨TECH_QUESTIONS, GENERIC_QUESTIONS⟩

/-- `_questions_for_tech`: look the lowercased name up in the dictionary,
defaulting to the empty list. -/
def questionsForTech (banks : List (String × List String)) (tech : String) : List String :=
  (banks.lookup (pyLower tech)).getD []

/-- Write a shuffled bank back to the dictionary (the in-place mutation of
the looked-up list; a missing key was a fresh empty list, so nothing is
written back). -/
def writeBank (banks : List (String × List String)) (tech : String)
    (bank : List String) : List (String × List String) :=
  banks.map (fun p => if p.1 = pyLower tech then (p.1, bank) else p)

/-- One entry of the result list: `{"tech": ..., "question": ...}`. -/
structure QItem where
  tech : String
  question : String
deriving Repr, DecidableEq

/-- The inner loop `for q in bank[:per_tech]`: stop when `picked` is full,
skip questions already used, otherwise record the question. -/
def pickFromBank (tech : String) (total : Nat) :
    List String → List QItem → List String → List QItem × List String
  | [], picked, used => (picked, used)
  | q :: qs, picked, used =>
    if picked.length ≥ total then (picked, used)
    else if q ∈ used then pickFromBank tech total qs picked used
    else pickFromBank tech total qs (picked ++ [⟨tech, q⟩]) (q :: used)

/-- The outer loop `for tech in techs`: shuffle the tech's bank (mutating
the dictionary), take the first `per_tech` questions, and stop once
`picked` is full. -/
def techLoop (total perTech : Nat) :
    List String → QBanks → MTState → List QItem → List String →
    List QItem × List String × QBanks × MTState
  | [], banks, s, picked, used => (picked, used, banks, s)
  | tech :: rest, banks, s, picked, used =>
    let bank := questionsForTech banks.techQuestions tech
    let (bank', s') := pyShuffle bank s
    let banks' : QBanks := ⟨writeBank banks.techQuestions tech bank', banks.generic⟩
    let (picked', used') := pickFromBank tech total (bank'.take perTech) picked used
    if picked'.length ≥ total then (picked', used', banks', s')
    else techLoop total perTech rest banks' s' picked' used'

/-- The backfill loop over the shuffled generic questions, driven by the
`remaining` countdown. -/
def genericLoop :
    List String → Nat → List QItem → List String → List QItem × List String
  | [], _, picked, used => (picked, used)
  | q :: qs, remaining, picked, used =>
    if remaining = 0 then (picked, used)
    else if q ∈ used then genericLoop qs remaining picked used
    else genericLoop qs (remaining - 1) (picked ++ [⟨"general", q⟩]) (q :: used)

/-- `generate_question_set(techs, total_questions)` given the current bank
state: a fresh `random.Random(42)`, the per-tech quota
`max(1, total // max(1, len(techs)))`, the tech loop, and the generic
backfill (which shuffles the generic bank only when a deficit remains).
Returns the picked items and the new bank state. -/
def generate_question_set (techs : List String) (total : Nat) (banks : QBanks) :
    List QItem × QBanks :=
  let perTech := max 1 (total / max 1 techs.length)
  let (picked, used, banks', s') := techLoop total perTech techs banks mtFresh42 [] []
  if picked.length < total then
    let (gen', _) := pyShuffle banks'.generic s'
    let (picked', _) := genericLoop gen' (total - picked.length) picked used
    (picked', ⟨banks'.techQuestions, gen'⟩)
  else (picked, banks')

/-! ## `streamlit_app.py`: the conversation state machine

One Streamlit rerun that processes a submitted chat message is modelled as
a step function on the session state.  External libraries are abstracted
as parameters: `email_validator` and `phonenumbers` as boolean predicates,
the VADER sentiment label and the LLM reply as string functions. -/

/-- The external dependencies of the application. -/
structure Ext where
  validEmail : String → Bool
  validPhone : String → Bool
  sentiment : String → String
  llmChat : List (String × String) → String

/-- `st.session_state.profile`: a dictionary filled one key at a time, in
the fixed order of `collect_candidate_info`. -/
structure RawProfile where
  full_name : Option String := none
  email : Option String := none
  phone : Option String := none
  years_experience : Option String := none
  desired_positions : Option String := none
  location : Option String := none
  tech_stack : Option String := none
deriving Repr, DecidableEq

/-- The empty profile dictionary of `init_state`. -/
def emptyProfile : RawProfile := {}

/-- `if not st.session_state.profile:` — the dictionary has no keys. -/
def profileDictEmpty (p : RawProfile) : Bool :=
  p.full_name = none && p.email = none && p.phone = none &&
  p.years_experience = none && p.desired_positions = none &&
  p.location = none && p.tech_stack = none

/-- A validated `CandidateProfile`. -/
structure Profile where
  full_name : String
  email : String
  phone : String
  years_experience : PyFloat
  desired_positions : String
  location : String
  tech_stack : String
deriving Repr, DecidableEq

/-- The pydantic field validators of `CandidateProfile` applied to a
candidate value set: `_validate_email`, `_validate_phone`, `_non_empty` on
the four text fields, and `_years`. -/
def profileValidatorsOk (ext : Ext) (fn em ph dp loc ts : String)
    (years : PyFloat) : Bool :=
  ext.validEmail em && ext.validPhone ph &&
  pyStrip fn ≠ "" && pyStrip dp ≠ "" && pyStrip loc ≠ "" && pyStrip ts ≠ "" &&
  yearsInRange years

/-- `CandidateProfile.from_raw` inside `maybe_finalize_profile`: `none`
when the dictionary is empty, when any required key is missing, or when a
validator rejects; the years text is parsed with the `-1.0` sentinel for
unparseable input. -/
def finalizeProfile (ext : Ext) (p : RawProfile) : Option Profile :=
  if profileDictEmpty p then none
  else
    match p.full_name, p.email, p.phone, p.desired_positions, p.location, p.tech_stack with
    | some fn, some em, some ph, some dp, some loc, some ts =>
      let years := yearsFromRaw p.years_experience
      if profileValidatorsOk ext fn em ph dp loc ts years then
        some ⟨fn, em, ph, years, dp, loc, ts⟩
      else none
    | _, _, _, _, _, _ => none

/-- `CandidateProfile.is_complete_minimal`: re-run the validators on the
model dump. -/
def isCompleteMinimal (ext : Ext) (pr : Profile) : Bool :=
  profileValidatorsOk ext pr.full_name pr.email pr.phone pr.desired_positions
    pr.location pr.tech_stack pr.years_experience

/-- `collect_candidate_info`: fill the next missing profile key from the
stripped input, or re-prompt; after the tech stack, read the consent
answer.  Returns the assistant reply and the updated profile dictionary
and consent flag. -/
def collect_candidate_info (ext : Ext) (userInput : String) (profile : RawProfile)
    (consent : Bool) : String × RawProfile × Bool :=
  let text := pyStrip userInput
  match profile.full_name with
  | none =>
    if text.length < 3 then
      ("Please provide your full name (at least 3 characters).", profile, consent)
    else
      ("Great, please share your email address.",
        { profile with full_name := some text }, consent)
  | some _ =>
  match profile.email with
  | none =>
    if !ext.validEmail (pyStrip text) then
      ("That doesn't look like a valid email. Please re-enter your email.",
        profile, consent)
    else
      ("Thanks! What's your phone number (with country code if possible)?",
        { profile with email := some text }, consent)
  | some _ =>
  match profile.phone with
  | none =>
    if !ext.validPhone (pyStrip text) then
      ("That phone number seems invalid. Please include country code if possible.",
        profile, consent)
    else
      ("How many years of experience do you have? (e.g., 2, 3.5)",
        { profile with phone := some text }, consent)
  | some _ =>
  match profile.years_experience with
  | none =>
    match pyFloatOfString text with
    | none =>
      ("Please enter a number for years of experience (e.g., 2, 3.5).",
        profile, consent)
    | some v =>
      if pyLt v (.finite 0) || pyLt (.finite 60) v then
        ("Please enter years of experience between 0 and 60.", profile, consent)
      else
        ("What's your desired position(s)?",
          { profile with years_experience := some text }, consent)
  | some _ =>
  match profile.desired_positions with
  | none =>
    if text.length < 2 then
      ("Please specify at least one desired position.", profile, consent)
    else
      ("What's your current location (City, Country)?",
        { profile with desired_positions := some text }, consent)
  | some _ =>
  match profile.location with
  | none =>
    if text.length < 2 then
      ("Please provide your current location (City, Country).", profile, consent)
    else
      ("Please list your tech stack (languages, frameworks, databases, tools)." ++
         " For example: Python, Django, PostgreSQL, Docker",
        { profile with location := some text }, consent)
  | some _ =>
  match profile.tech_stack with
  | none =>
    let techs := parse_tech_stack text
    if techs = [] then
      ("I couldn't parse that. Please list comma-separated technologies (e.g., Python, React).",
        profile, consent)
    else
      ("Would you like to consent to storing your data locally for screening? (yes/no)",
        { profile with tech_stack := some (joinCommaSpace techs) }, consent)
  | some _ =>
  if !consent then
    ("Thanks! Generating tailored technical questions based on your tech stack...",
      profile, ["yes", "y"].contains (pyLower text))
  else
    ("", profile, consent)

/-- One asked question in the session, with the answer and sentiment keys
added once the candidate replies. -/
structure SQ where
  tech : String
  question : String
  answer : Option String := none
  sentiment : Option String := none
deriving Repr, DecidableEq

/-- A record written by `LocalJSONStore.save_conversation`: the profile
dump with the message and question lists at save time. -/
structure SavedRec where
  profile : Profile
  messages : List (String × String)
  questions : List SQ
deriving Repr, DecidableEq

/-- The whole mutable state one rerun can touch: the session state of
`init_state`, the module-level question banks, and the store directory. -/
structure World where
  messages : List (String × String) := []
  profile : RawProfile := {}
  consent : Bool := false
  questions : List SQ := []
  ended : Bool := false
  questionCount : Nat := 5
  banks : QBanks := initialBanks
  saved : List SavedRec := []
deriving Repr, DecidableEq

/-- The state after `init_state` on a fresh session. -/
def initWorld : World := {}

/-- `add_message`. -/
def addMsg (w : World) (role content : String) : World :=
  { w with messages := w.messages ++ [(role, content)] }

/-- The two opening messages of `greeting_block` (sent only when the
message list is empty). -/
def greetingMessages : List (String × String) :=
  [("assistant",
    "Hello! I'm TalentScout, your hiring assistant. I will collect your basic details," ++
    " understand your tech stack, and ask a few tailored technical questions. You can type" ++
    " 'exit' anytime to end the conversation."),
   ("assistant", "First, what's your full name?")]

/-- `greeting_block`. -/
def greet (w : World) : World :=
  if w.messages = [] then { w with messages := greetingMessages } else w

/-- The closing message of `end_conversation_block`. -/
def closingMessage : String :=
  "Thank you for your time. Our team will review your responses and reach out with next steps."

/-- `end_conversation_block(profile)`: emit the closing message, mark the
session ended, and persist iff consent was granted and a finalized profile
exists. -/
def endConversationBlock (w : World) (profile : Option Profile) : World :=
  let w1 := addMsg w "assistant" closingMessage
  let w2 := { w1 with ended := true }
  match profile with
  | some pr =>
    if w2.consent then
      { w2 with saved := w2.saved ++ [⟨pr, w2.messages, w2.questions⟩] }
    else w2
  | none => w2

/-- Write the answer and sentiment into the first unanswered question
(`unanswered[0]` aliases an entry of `st.session_state.questions`). -/
def answerFirst (input sent : String) : List SQ → List SQ
  | [] => []
  | q :: qs =>
    if q.answer = none then { q with answer := some input, sentiment := some sent } :: qs
    else q :: answerFirst input sent qs

/-- `messages[-10:]`. -/
def lastTen (ms : List (String × String)) : List (String × String) :=
  ms.drop (ms.length - 10)

/-- The generated-questions announcement of `main` (the intro line
followed by one numbered message per question). -/
def questionMessages (techsLine : String) (qs : List QItem) : List (String × String) :=
  ("assistant",
      "Generating questions for your tech stack: " ++ techsLine ++ ". Please answer briefly.") ::
    (List.enumFrom 1 qs).map (fun p =>
      ("assistant", "Q" ++ toString p.1 ++ ". " ++ p.2.question))

/-- The question-generation branch of `main` (lines 235-246):
`ask_technical_questions` over the finalized profile's parsed tech stack,
store the questions, announce them. -/
def generateBranch (w : World) (pr : Profile) : World :=
  let techs := parse_tech_stack pr.tech_stack
  let res := generate_question_set techs w.questionCount w.banks
  let qs := res.1
  let w1 := { w with banks := res.2,
                     questions := qs.map (fun (q : QItem) => ({ tech := q.tech, question := q.question } : SQ)) }
  { w1 with messages := w1.messages ++
      questionMessages (joinCommaSpace techs) qs }

/-- The tail of `main` after the collection block: generate questions for a
finalized profile when none exist yet, else record the answer to the first
unanswered question, else fall through to the LLM. -/
def afterCollect (ext : Ext) (w : World) (p : Option Profile) (input : String) : World :=
  match p with
  | some pr =>
    if w.questions = [] then generateBranch w pr
    else answerOrLlm ext w input
  | none => answerOrLlm ext w input
where
  /-- Lines 248-268 of `main`. -/
  answerOrLlm (ext : Ext) (w : World) (input : String) : World :=
    if (w.questions.filter (fun q => q.answer = none)) ≠ [] then
      let qs' := answerFirst input (ext.sentiment input) w.questions
      let remaining := (qs'.filter (fun q => q.answer = none)).length
      let reply := "Noted. " ++
        (if remaining ≠ 0 then toString remaining ++ " question(s) remaining."
         else "Type 'exit' to finish or ask a follow-up.")
      addMsg { w with questions := qs' } "assistant" reply
    else
      addMsg w "assistant" (ext.llmChat (lastTen w.messages))

/-- One rerun of `main` that received the chat submission `input`: the
greeting block, the ended guard, the empty-input guard, the end-keyword
check, then profile collection / question generation / answer recording /
LLM fallback. -/
def step (ext : Ext) (w : World) (input : String) : World :=
  let w := greet w
  if w.ended then w
  else if input = "" then w
  else if is_end_keyword input then
    let w1 := addMsg w "user" input
    endConversationBlock w1 (finalizeProfile ext w1.profile)
  else
    let w1 := addMsg w "user" input
    match finalizeProfile ext w1.profile with
    | none =>
      let (reply, prof', cons') := collect_candidate_info ext input w1.profile w1.consent
      let w2 := { w1 with profile := prof', consent := cons' }
      if reply ≠ "" then addMsg w2 "assistant" reply
      else afterCollect ext w2 (finalizeProfile ext prof') input
    | some pr =>
      if !isCompleteMinimal ext pr then
        let (reply, prof', cons') := collect_candidate_info ext input w1.profile w1.consent
        let w2 := { w1 with profile := prof', consent := cons' }
        if reply ≠ "" then addMsg w2 "assistant" reply
        else afterCollect ext w2 (finalizeProfile ext prof') input
      else afterCollect ext w1 (some pr) input

/-- Run a list of chat submissions from the initial session state. -/
def runTurns (ext : Ext) (inputs : List String) : World :=
  inputs.foldl (step ext) initWorld

/-- A concrete external environment for closed evaluations: every email
and phone number is accepted, sentiment is constantly neutral, the LLM
echoes nothing. -/
def extAccepting : Ext :=
  { validEmail := fun _ => true
    validPhone := fun _ => true
    sentiment := fun _ => "neutral"
    llmChat := fun _ => "" }

/-- A fully collected profile dictionary, for concrete evaluations. -/
def demoProfile : RawProfile :=
  { full_name := some "John Doe", email := some "j@x.co",
    phone := some "+14155552671", years_experience := some "3.5",
    desired_positions := some "Backend", location := some "Pune",
    tech_stack := some "python" }

/-- A live session with a complete profile and granted consent. -/
def demoWorld : World :=
  { messages := [("assistant", "hello")], profile := demoProfile, consent := true }

/-- An already ended session. -/
def endedWorld : World :=
  { messages := [("assistant", "done")], ended := true }

/-! ## Character-level lemmas -/

theorem char_eq_of_toNat_eq {a b : Char} (h : a.toNat = b.toNat) : a = b :=
  Char.eq_of_val_eq (by exact_mod_cast UInt32.toNat.inj h)

theorem toNat_ofNat_of_lt {n : Nat} (h : n < 55296) : (Char.ofNat n).toNat = n := by
  have hv : Nat.isValidChar n := Or.inl h
  simp only [Char.ofNat, hv, dite_true, Char.ofNatAux, Char.toNat]
  simp [UInt32.toNat, UInt32.ofNat', BitVec.toNat_ofNat]

theorem pyToLowerChar_toNat_of_upper {c : Char} (h : 'A' ≤ c ∧ c ≤ 'Z') :
    (pyToLowerChar c).toNat = c.toNat + 32 := by
  have hz : c.toNat ≤ 90 := h.2
  unfold pyToLowerChar
  rw [if_pos h]
  exact toNat_ofNat_of_lt (by omega)

theorem pyToLowerChar_of_not_upper {c : Char} (h : ¬('A' ≤ c ∧ c ≤ 'Z')) :
    pyToLowerChar c = c := by
  unfold pyToLowerChar
  rw [if_neg h]

theorem isPySpace_eq_false_of_ge {c : Char} (h : 33 ≤ c.toNat) :
    isPySpace c = false := by
  unfold isPySpace
  simp only [Bool.or_eq_false_iff, decide_eq_false_iff_not]
  refine ⟨⟨⟨⟨⟨?_, ?_⟩, ?_⟩, ?_⟩, ?_⟩, ?_⟩ <;> intro he <;> subst he <;>
    exact absurd h (by decide)

theorem pyToLowerChar_idem (c : Char) :
    pyToLowerChar (pyToLowerChar c) = pyToLowerChar c := by
  by_cases h : 'A' ≤ c ∧ c ≤ 'Z'
  · have h1 : (pyToLowerChar c).toNat = c.toNat + 32 := pyToLowerChar_toNat_of_upper h
    have h65 : 65 ≤ c.toNat := h.1
    refine pyToLowerChar_of_not_upper ?_
    intro hc
    have h2 : (pyToLowerChar c).toNat ≤ 90 := hc.2
    omega
  · rw [pyToLowerChar_of_not_upper h]
    exact pyToLowerChar_of_not_upper h

theorem isPySpace_pyToLowerChar (c : Char) :
    isPySpace (pyToLowerChar c) = isPySpace c := by
  by_cases h : 'A' ≤ c ∧ c ≤ 'Z'
  · have h1 : (pyToLowerChar c).toNat = c.toNat + 32 := pyToLowerChar_toNat_of_upper h
    have h65 : 65 ≤ c.toNat := h.1
    rw [isPySpace_eq_false_of_ge (by omega : 33 ≤ (pyToLowerChar c).toNat),
      isPySpace_eq_false_of_ge (by omega : 33 ≤ c.toNat)]
  · rw [pyToLowerChar_of_not_upper h]

theorem pyToLowerChar_ne_sep {c s : Char} (hs : s.toNat < 97 ∨ 122 < s.toNat)
    (h : pyToLowerChar c = s) : c = s := by
  by_cases hc : 'A' ≤ c ∧ c ≤ 'Z'
  · exfalso
    have h1 : (pyToLowerChar c).toNat = c.toNat + 32 := pyToLowerChar_toNat_of_upper hc
    have h65 : 65 ≤ c.toNat := hc.1
    have h90 : c.toNat ≤ 90 := hc.2
    rw [h] at h1
    omega
  · rwa [pyToLowerChar_of_not_upper hc] at h

/-! ## Lemmas about `stripChars` and `lowerChars` -/

theorem dropWhile_cons_exists {p : Char → Bool} {l : List Char}
    (h : l.dropWhile p ≠ []) :
    ∃ c t, l.dropWhile p = c :: t ∧ p c = false := by
  induction l with
  | nil => simp at h
  | cons c t ih =>
    rw [List.dropWhile_cons] at h ⊢
    by_cases hc : p c = true
    · rw [if_pos hc] at h ⊢
      exact ih h
    · rw [if_neg hc]
      exact ⟨c, t, rfl, by simpa using hc⟩

theorem getLast?_dropWhile {p : Char → Bool} {l : List Char}
    (h : l.dropWhile p ≠ []) : (l.dropWhile p).getLast? = l.getLast? := by
  induction l with
  | nil => simp at h
  | cons c t ih =>
    rw [List.dropWhile_cons] at h ⊢
    by_cases hc : p c = true
    · rw [if_pos hc] at h ⊢
      have ht : t ≠ [] := by
        intro he
        rw [he] at h
        simp at h
      rw [ih h]
      cases t with
      | nil => exact absurd rfl ht
      | cons d u => simp [List.getLast?_cons_cons]
    · rw [if_neg hc]

theorem dropWhile_eq_self_of_head {p : Char → Bool} {l : List Char}
    (h : ∀ c t, l = c :: t → p c = false) : l.dropWhile p = l := by
  cases l with
  | nil => rfl
  | cons c t =>
    rw [List.dropWhile_cons, if_neg]
    simp [h c t rfl]

theorem stripChars_nil : stripChars [] = [] := rfl

theorem strip_eq_self {l : List Char}
    (hhead : ∀ c t, l = c :: t → isPySpace c = false)
    (hlast : ∀ x, l.getLast? = some x → isPySpace x = false) :
    stripChars l = l := by
  unfold stripChars
  rw [dropWhile_eq_self_of_head hhead]
  rw [dropWhile_eq_self_of_head (by
    intro c t hct
    apply hlast
    rw [← List.head?_reverse, hct]
    rfl)]
  exact l.reverse_reverse

theorem stripChars_head? {l : List Char} (h : stripChars l ≠ []) :
    ∃ c t, stripChars l = c :: t ∧ isPySpace c = false := by
  unfold stripChars at h ⊢
  set A := l.dropWhile isPySpace with hA
  set R := A.reverse.dropWhile isPySpace with hR
  have hRne : R ≠ [] := by
    intro he
    rw [he] at h
    simp at h
  have hAne : A.reverse ≠ [] := by
    intro he
    rw [hR, he] at hRne
    simp at hRne
  have hAne' : A ≠ [] := by
    intro he
    rw [he] at hAne
    simp at hAne
  obtain ⟨c, t, hct, hc⟩ := dropWhile_cons_exists (p := isPySpace) (l := l) hAne'
  have hlastR : R.getLast? = A.reverse.getLast? := getLast?_dropWhile hRne
  have hlastA : A.reverse.getLast? = some c := by
    rw [← List.head?_reverse, List.reverse_reverse, hA, hct]
    rfl
  cases hRrev : R.reverse with
  | nil =>
    exact absurd (by simpa using congrArg List.reverse hRrev) hRne
  | cons d u =>
    refine ⟨d, u, rfl, ?_⟩
    have : R.reverse.head? = some d := by rw [hRrev]; rfl
    rw [List.head?_reverse, hlastR, hlastA] at this
    cases this
    exact hc

theorem stripChars_getLast? {l : List Char} (h : stripChars l ≠ []) :
    ∀ x, (stripChars l).getLast? = some x → isPySpace x = false := by
  intro x hx
  unfold stripChars at h hx
  set A := l.dropWhile isPySpace with hA
  set R := A.reverse.dropWhile isPySpace with hR
  have hRne : R ≠ [] := by
    intro he
    rw [he] at h
    simp at h
  obtain ⟨c, t, hct, hc⟩ := dropWhile_cons_exists (p := isPySpace) (l := A.reverse) hRne
  rw [← List.head?_reverse, List.reverse_reverse, hR, hct, List.head?_cons] at hx
  cases hx
  exact hc

theorem stripChars_idem (l : List Char) : stripChars (stripChars l) = stripChars l := by
  by_cases h : stripChars l = []
  · rw [h]
    exact stripChars_nil
  · refine strip_eq_self ?_ (stripChars_getLast? h)
    intro c t hct
    obtain ⟨c', t', hct', hc'⟩ := stripChars_head? h
    rw [hct] at hct'
    cases hct'
    exact hc'

theorem mem_stripChars {c : Char} {l : List Char} (h : c ∈ stripChars l) : c ∈ l := by
  unfold stripChars at h
  rw [List.mem_reverse] at h
  have h2 := (List.dropWhile_sublist (l := (l.dropWhile isPySpace).reverse) isPySpace).mem h
  rw [List.mem_reverse] at h2
  exact (List.dropWhile_sublist isPySpace).mem h2

theorem lowerChars_nil_iff {l : List Char} : lowerChars l = [] ↔ l = [] := by
  unfold lowerChars
  exact List.map_eq_nil_iff

theorem lowerChars_idem (l : List Char) : lowerChars (lowerChars l) = lowerChars l := by
  unfold lowerChars
  rw [List.map_map]
  exact List.map_congr_left (fun a _ => pyToLowerChar_idem a)

theorem strip_lower_comm (l : List Char) :
    stripChars (lowerChars l) = lowerChars (stripChars l) := by
  have hps : (isPySpace ∘ pyToLowerChar) = isPySpace := by
    funext c
    exact isPySpace_pyToLowerChar c
  unfold stripChars lowerChars
  rw [List.dropWhile_map, hps, ← List.map_reverse, List.dropWhile_map, hps,
    ← List.map_reverse]

theorem stripChars_cons_space {c : Char} {l : List Char} (h : isPySpace c = true) :
    stripChars (c :: l) = stripChars l := by
  unfold stripChars
  rw [List.dropWhile_cons, if_pos h]

/-! ## Lemmas about `splitComma`, `replaceSeps`, `dedupAux`, `aliasMap` -/

theorem splitComma_ne_nil (cs : List Char) : splitComma cs ≠ [] := by
  induction cs with
  | nil => simp [splitComma]
  | cons c t ih =>
    rw [splitComma]
    by_cases hc : c = ','
    · rw [if_pos hc]
      simp
    · rw [if_neg hc]
      cases h : splitComma t with
      | nil => exact absurd h ih
      | cons a as => simp

theorem mem_splitComma_chars {t : List Char} {cs : List Char}
    (ht : t ∈ splitComma cs) : ∀ c ∈ t, c ∈ cs ∧ c ≠ ',' := by
  induction cs generalizing t with
  | nil =>
    simp [splitComma] at ht
    subst ht
    simp
  | cons c cs ih =>
    rw [splitComma] at ht
    by_cases hc : c = ','
    · rw [if_pos hc] at ht
      rcases List.mem_cons.mp ht with h | h
      · subst h
        simp
      · intro d hd
        obtain ⟨h1, h2⟩ := ih h d hd
        exact ⟨List.mem_cons_of_mem _ h1, h2⟩
    · rw [if_neg hc] at ht
      cases hsp : splitComma cs with
      | nil => exact absurd hsp (splitComma_ne_nil cs)
      | cons a as =>
        rw [hsp] at ht
        rcases List.mem_cons.mp ht with h | h
        · subst h
          intro d hd
          rcases List.mem_cons.mp hd with h | h
          · subst h
            exact ⟨List.mem_cons_self _ _, hc⟩
          · obtain ⟨h1, h2⟩ := ih (hsp ▸ List.mem_cons_self a as) d h
            exact ⟨List.mem_cons_of_mem _ h1, h2⟩
        · intro d hd
          obtain ⟨h1, h2⟩ := ih (hsp ▸ List.mem_cons_of_mem a h) d hd
          exact ⟨List.mem_cons_of_mem _ h1, h2⟩

theorem splitComma_eq_self {t : List Char} (h : ∀ c ∈ t, c ≠ ',') :
    splitComma t = [t] := by
  induction t with
  | nil => rfl
  | cons c u ih =>
    rw [splitComma, if_neg (h c (List.mem_cons_self c u))]
    rw [ih (fun d hd => h d (List.mem_cons_of_mem c hd))]

theorem splitComma_append {t r : List Char} (h : ∀ c ∈ t, c ≠ ',') :
    splitComma (t ++ ',' :: r) = t :: splitComma r := by
  induction t with
  | nil => simp [splitComma]
  | cons c u ih =>
    rw [List.cons_append, splitComma, if_neg (h c (List.mem_cons_self c u)),
      ih (fun d hd => h d (List.mem_cons_of_mem c hd))]

theorem mem_replaceSeps_not_sep {c : Char} {cs : List Char}
    (h : c ∈ replaceSeps cs) : c ≠ '/' ∧ c ≠ '|' := by
  unfold replaceSeps at h
  obtain ⟨d, _, hd⟩ := List.mem_map.mp h
  by_cases h1 : d = '/'
  · rw [if_pos h1] at hd
    subst hd
    exact ⟨by decide, by decide⟩
  · rw [if_neg h1] at hd
    by_cases h2 : d = '|'
    · rw [if_pos h2] at hd
      subst hd
      exact ⟨by decide, by decide⟩
    · rw [if_neg h2] at hd
      subst hd
      exact ⟨h1, h2⟩

theorem replaceSeps_eq_self {cs : List Char} (h : ∀ c ∈ cs, c ≠ '/' ∧ c ≠ '|') :
    replaceSeps cs = cs := by
  unfold replaceSeps
  have h2 : ∀ c ∈ cs, (if c = '/' then ',' else if c = '|' then ',' else c) = id c := by
    intro c hc
    rw [if_neg (h c hc).1, if_neg (h c hc).2]
    rfl
  rw [List.map_congr_left h2, List.map_id]

theorem mem_dedupAux {t : List Char} :
    ∀ {seen xs : List (List Char)}, t ∈ dedupAux seen xs → t ∈ xs := by
  intro seen xs
  induction xs generalizing seen with
  | nil => simp [dedupAux]
  | cons x xs ih =>
    rw [dedupAux]
    by_cases hx : x ∈ seen
    · rw [if_pos hx]
      intro h
      exact List.mem_cons_of_mem _ (ih h)
    · rw [if_neg hx]
      intro h
      rcases List.mem_cons.mp h with h | h
      · exact h ▸ List.mem_cons_self _ _
      · exact List.mem_cons_of_mem _ (ih h)

theorem nodup_dedupAux :
    ∀ (seen xs : List (List Char)),
      (dedupAux seen xs).Nodup ∧ ∀ t ∈ dedupAux seen xs, t ∉ seen := by
  intro seen xs
  induction xs generalizing seen with
  | nil => simp [dedupAux]
  | cons x xs ih =>
    rw [dedupAux]
    by_cases hx : x ∈ seen
    · rw [if_pos hx]
      exact ih seen
    · rw [if_neg hx]
      obtain ⟨hnd, hns⟩ := ih (x :: seen)
      refine ⟨List.nodup_cons.mpr ⟨?_, hnd⟩, ?_⟩
      · intro hmem
        exact hns x hmem (List.mem_cons_self _ _)
      · intro t ht
        rcases List.mem_cons.mp ht with h | h
        · exact h ▸ hx
        · intro hts
          exact hns t h (List.mem_cons_of_mem _ hts)

theorem dedupAux_eq_self :
    ∀ (seen xs : List (List Char)), xs.Nodup → (∀ t ∈ xs, t ∉ seen) →
      dedupAux seen xs = xs := by
  intro seen xs
  induction xs generalizing seen with
  | nil => intro _ _; rfl
  | cons x xs ih =>
    intro hnd hdis
    rw [dedupAux, if_neg (hdis x (List.mem_cons_self x xs))]
    rw [ih (x :: seen) (List.nodup_cons.mp hnd).2]
    intro t ht
    intro hmem
    rcases List.mem_cons.mp hmem with h | h
    · exact (List.nodup_cons.mp hnd).1 (h ▸ ht)
    · exact hdis t (List.mem_cons_of_mem x ht) h

theorem lookup_mem_values {α β : Type} [BEq α] [LawfulBEq α] {a : α} {b : β}
    {ps : List (α × β)} (h : List.lookup a ps = some b) : b ∈ ps.map Prod.snd := by
  induction ps with
  | nil => simp [List.lookup] at h
  | cons p ps ih =>
    rw [List.lookup] at h
    cases hb : a == p.1 with
    | true =>
      rw [hb] at h
      change some p.2 = some b at h
      cases h
      simp
    | false =>
      rw [hb] at h
      change List.lookup a ps = some b at h
      simp only [List.map_cons, List.mem_cons]
      exact Or.inr (ih h)

theorem aliasMap_nil : aliasMap [] = [] := by decide

theorem aliasMap_cases (t : List Char) :
    aliasMap t = t ∨ aliasMap t ∈ aliasPairs.map Prod.snd := by
  unfold aliasMap
  cases h : aliasPairs.lookup t with
  | none => exact Or.inl rfl
  | some v => exact Or.inr (lookup_mem_values h)

theorem aliasValues_normal :
    ∀ v ∈ aliasPairs.map Prod.snd, normalToken v := by decide

theorem aliasMap_ne_nil {t : List Char} (h : t ≠ []) : aliasMap t ≠ [] := by
  rcases aliasMap_cases t with hc | hc
  · rw [hc]
    exact h
  · have := aliasValues_normal _ hc
    exact this.2.2.2.1

/-! ## Invariants of `parseTechStackCore` -/

theorem parseTechStackCore_nodup (cs : List Char) : (parseTechStackCore cs).Nodup := by
  unfold parseTechStackCore
  exact (nodup_dedupAux [] _).1

theorem parseTechStackCore_normal (cs : List Char) :
    ∀ t ∈ parseTechStackCore cs, normalToken t := by
  intro t ht
  unfold parseTechStackCore at ht
  have ht2 := mem_dedupAux ht
  obtain ⟨u, hu, huT⟩ := List.mem_map.mp ht2
  obtain ⟨v, hv, hvT⟩ := List.mem_map.mp hu
  have hvfil := List.mem_filter.mp hv
  have hvsp : v ∈ splitComma (replaceSeps cs) := hvfil.1
  have hvne : stripChars v ≠ [] := by simpa using hvfil.2
  rcases aliasMap_cases u with hc | hc
  · subst huT
    rw [hc]
    subst hvT
    refine ⟨?_, ?_, ?_, ?_, ?_⟩
    · rw [strip_lower_comm, stripChars_idem]
    · exact lowerChars_idem _
    · rw [hc]
    · intro he
      exact hvne (lowerChars_nil_iff.mp he)
    · intro c hcm
      obtain ⟨d, hd, hdc⟩ := List.mem_map.mp hcm
      have hdv : d ∈ v := mem_stripChars hd
      have hsp := mem_splitComma_chars hvsp d hdv
      have hrs := mem_replaceSeps_not_sep hsp.1
      refine ⟨?_, ?_, ?_⟩
      · intro he
        exact hsp.2 (pyToLowerChar_ne_sep (by decide) (hdc.trans he))
      · intro he
        exact hrs.1 (pyToLowerChar_ne_sep (by decide) (hdc.trans he))
      · intro he
        exact hrs.2 (pyToLowerChar_ne_sep (by decide) (hdc.trans he))
  · subst huT
    exact aliasValues_normal _ hc

/-! ## Parsing the joined token list returns the tokens -/

theorem mem_joinTokens {c : Char} :
    ∀ {ts : List (List Char)}, c ∈ joinTokens ts →
      (∃ t ∈ ts, c ∈ t) ∨ c = ',' ∨ c = ' ' := by
  intro ts
  induction ts with
  | nil => simp [joinTokens]
  | cons t ts ih =>
    cases ts with
    | nil =>
      intro h
      exact Or.inl ⟨t, List.mem_cons_self _ _, h⟩
    | cons u us =>
      intro h
      rw [show joinTokens (t :: u :: us) = t ++ ',' :: ' ' :: joinTokens (u :: us) from rfl]
        at h
      rcases List.mem_append.mp h with h | h
      · exact Or.inl ⟨t, List.mem_cons_self _ _, h⟩
      · rcases List.mem_cons.mp h with h | h
        · exact Or.inr (Or.inl h)
        · rcases List.mem_cons.mp h with h | h
          · exact Or.inr (Or.inr h)
          · rcases ih h with ⟨w, hw, hcw⟩ | h
            · exact Or.inl ⟨w, List.mem_cons_of_mem _ hw, hcw⟩
            · exact Or.inr h

theorem splitComma_joinTokens :
    ∀ (t : List Char) (ts : List (List Char)),
      (∀ u ∈ t :: ts, ∀ c ∈ u, c ≠ ',') →
      splitComma (joinTokens (t :: ts)) = t :: ts.map (fun u => ' ' :: u) := by
  intro t ts
  induction ts generalizing t with
  | nil =>
    intro hall
    exact splitComma_eq_self (hall t (List.mem_cons_self _ _))
  | cons u us ih =>
    intro hall
    rw [show joinTokens (t :: u :: us) = t ++ ',' :: ' ' :: joinTokens (u :: us) from rfl]
    rw [splitComma_append (hall t (List.mem_cons_self _ _))]
    have hX := ih u (fun w hw => hall w (List.mem_cons_of_mem _ hw))
    rw [splitComma, if_neg (by decide), hX]
    rfl

theorem parseTechStackCore_eq (cs : List Char) :
    parseTechStackCore cs =
      dedupAux [] ((((splitComma (replaceSeps cs)).filter
          (fun t => stripChars t ≠ [])).map
        (fun t => lowerChars (stripChars t))).map aliasMap) := rfl

theorem parse_joinTokens (ts : List (List Char)) (hts : ∀ t ∈ ts, normalToken t)
    (hnd : ts.Nodup) : parseTechStackCore (joinTokens ts) = ts := by
  cases ts with
  | nil => rfl
  | cons t0 rest =>
    have hrep : replaceSeps (joinTokens (t0 :: rest)) = joinTokens (t0 :: rest) := by
      refine replaceSeps_eq_self ?_
      intro c hcm
      rcases mem_joinTokens hcm with ⟨w, hw, hcw⟩ | h | h
      · exact ((hts w hw).2.2.2.2 c hcw).2
      · subst h
        exact ⟨by decide, by decide⟩
      · subst h
        exact ⟨by decide, by decide⟩
    have hsp : splitComma (joinTokens (t0 :: rest)) =
        t0 :: rest.map (fun u => ' ' :: u) := by
      refine splitComma_joinTokens t0 rest ?_
      intro w hw c hcw
      exact ((hts w hw).2.2.2.2 c hcw).1
    have hfil : (t0 :: rest.map (fun u => ' ' :: u)).filter
        (fun t => stripChars t ≠ []) = t0 :: rest.map (fun u => ' ' :: u) := by
      refine List.filter_eq_self.mpr ?_
      intro v hvm
      rcases List.mem_cons.mp hvm with h | h
      · subst h
        simp only [decide_eq_true_eq]
        rw [(hts v (List.mem_cons_self _ _)).1]
        exact (hts v (List.mem_cons_self _ _)).2.2.2.1
      · obtain ⟨w, hw, hwv⟩ := List.mem_map.mp h
        subst hwv
        simp only [decide_eq_true_eq]
        rw [stripChars_cons_space (by decide),
          (hts w (List.mem_cons_of_mem _ hw)).1]
        exact (hts w (List.mem_cons_of_mem _ hw)).2.2.2.1
    have hmap : (t0 :: rest.map (fun u => ' ' :: u)).map
        (fun t => lowerChars (stripChars t)) = t0 :: rest := by
      rw [List.map_cons, List.map_map]
      have h1 : lowerChars (stripChars t0) = t0 := by
        rw [(hts t0 (List.mem_cons_self _ _)).1, (hts t0 (List.mem_cons_self _ _)).2.1]
      have h2 : rest.map ((fun v => lowerChars (stripChars v)) ∘ fun u => ' ' :: u) =
          rest := by
        refine (List.map_congr_left ?_).trans (List.map_id rest)
        intro w hw
        show lowerChars (stripChars (' ' :: w)) = w
        rw [stripChars_cons_space (by decide), (hts w (List.mem_cons_of_mem _ hw)).1,
          (hts w (List.mem_cons_of_mem _ hw)).2.1]
      rw [h1, h2]
    have halias : (t0 :: rest).map aliasMap = t0 :: rest := by
      refine (List.map_congr_left ?_).trans (List.map_id (t0 :: rest))
      intro w hw
      exact (hts w hw).2.2.1
    rw [parseTechStackCore_eq, hrep, hsp, hfil, hmap, halias]
    exact dedupAux_eq_self [] (t0 :: rest) hnd (by simp)

/-! ## Equivalence of the source parser with the spec's description -/

theorem splitAnySep_eq (cs : List Char) :
    splitAnySep cs = splitComma (replaceSeps cs) := by
  induction cs with
  | nil => rfl
  | cons c cs ih =>
    rw [show replaceSeps (c :: cs) =
        (if c = '/' then ',' else if c = '|' then ',' else c) :: replaceSeps cs from rfl]
    rw [splitAnySep]
    by_cases h2 : c = '/'
    · rw [if_pos h2, splitComma, if_pos rfl, ih,
        if_pos (by rw [h2]; decide)]
    · by_cases h3 : c = '|'
      · rw [if_neg h2, if_pos h3, splitComma, if_pos rfl, ih,
          if_pos (by rw [h3]; decide)]
      · rw [if_neg h2, if_neg h3]
        by_cases h1 : c = ','
        · rw [if_pos (by rw [h1]; decide), splitComma, if_pos h1, ih]
        · rw [if_neg (by simp [h1, h2, h3]), splitComma, if_neg h1, ih]

theorem parse_tech_stack_eq_spec (s : String) :
    parse_tech_stack s = specParseTechStack s := by
  unfold parse_tech_stack specParseTechStack
  rw [parseTechStackCore_eq, splitAnySep_eq]
  have hmm : (((splitComma (replaceSeps s.data)).filter
        (fun t => stripChars t ≠ [])).map
      (fun t => lowerChars (stripChars t))).map aliasMap =
      ((splitComma (replaceSeps s.data)).filter
        (fun t => stripChars t ≠ [])).map
      (fun t => aliasMap (lowerChars (stripChars t))) := by
    rw [List.map_map]
    rfl
  have hfm : ((splitComma (replaceSeps s.data)).map
        (fun t => aliasMap (lowerChars (stripChars t)))).filter (fun t => t ≠ []) =
      ((splitComma (replaceSeps s.data)).filter
        (fun t => stripChars t ≠ [])).map
      (fun t => aliasMap (lowerChars (stripChars t))) := by
    rw [List.filter_map]
    congr 1
    refine List.filter_congr ?_
    intro t _
    simp only [Function.comp_apply, decide_eq_decide]
    constructor
    · intro h
      intro he
      rw [he] at h
      exact h (by rw [show lowerChars ([] : List Char) = [] from rfl, aliasMap_nil])
    · intro h
      intro he
      have h2 : lowerChars (stripChars t) ≠ [] := by
        intro hl
        exact h (lowerChars_nil_iff.mp hl)
      exact aliasMap_ne_nil h2 he
  rw [hmm, ← hfm]

/-! ## Claim theorems -/

/-- C5: tech-stack parsing behaves exactly as specified: it agrees, on every
input string, with the spec-worded pipeline (split on comma/slash/pipe, trim
and lowercase, alias-map, drop empty tokens, de-duplicate preserving
first-seen order); the empty input yields the empty list; and
`parse_tech_stack "Python, py, JS" = ["python", "javascript"]`. -/
theorem c5_parse_tech_stack_spec :
    (∀ s : String, parse_tech_stack s = specParseTechStack s) ∧
    parse_tech_stack "" = [] ∧
    parse_tech_stack "Python, py, JS" = ["python", "javascript"] :=
  ⟨parse_tech_stack_eq_spec, by decide, by decide⟩

/-- C10: tech-stack parsing is idempotent on its own output: re-parsing the
comma-space join of a parse result returns the result unchanged, because
emitted tokens are trimmed, lowercase, separator-free, alias-fixed and
pairwise distinct. -/
theorem c10_parse_tech_stack_idempotent :
    ∀ s : String,
      parse_tech_stack (joinCommaSpace (parse_tech_stack s)) = parse_tech_stack s := by
  intro s
  unfold parse_tech_stack joinCommaSpace
  rw [show ((parseTechStackCore s.data).map String.mk).map String.data =
      parseTechStackCore s.data from by
    rw [List.map_map]
    exact (List.map_congr_left (fun a _ => rfl)).trans (List.map_id _)]
  rw [show (String.mk (joinTokens (parseTechStackCore s.data))).data =
      joinTokens (parseTechStackCore s.data) from rfl]
  rw [parse_joinTokens _ (parseTechStackCore_normal s.data)
    (parseTechStackCore_nodup s.data)]

/-- C1: the determinism law fails on the code.  `generate_question_set`
seeds a fresh `random.Random(42)` per call, but `rnd.shuffle(bank)`
permutes the module-level bank lists in place, so the second of two
identical calls shuffles an already-permuted bank: from a fresh module
state, `generate_question_set(["python"], 3)` returns the GIL, generators
and context-managers questions, while the immediately repeated identical
call returns a different ordered list (context managers, generators, list
vs tuple). -/
theorem c1_repeated_call_outputs_differ :
    (generate_question_set ["python"] 3 initialBanks).1 =
      [⟨"python", "How does GIL impact multithreading in Python?"⟩,
       ⟨"python", "What are generators? Show a simple example."⟩,
       ⟨"python", "Describe context managers and the 'with' statement."⟩] ∧
    (generate_question_set ["python"] 3
        (generate_question_set ["python"] 3 initialBanks).2).1 =
      [⟨"python", "Describe context managers and the 'with' statement."⟩,
       ⟨"python", "What are generators? Show a simple example."⟩,
       ⟨"python", "Explain list vs tuple and when to use each."⟩] ∧
    (generate_question_set ["python"] 3
        (generate_question_set ["python"] 3 initialBanks).2).1 ≠
      (generate_question_set ["python"] 3 initialBanks).1 := by
  decide

/-- C4: `generate_question_set(["python", "react"], 5)` (from the module's
initial bank state) returns exactly 5 items, with pairwise distinct
question texts, every tag being `python`, `react` or `general`. -/
theorem c4_python_react_five_questions :
    (generate_question_set ["python", "react"] 5 initialBanks).1.length = 5 ∧
    ((generate_question_set ["python", "react"] 5 initialBanks).1.map
      QItem.question).Nodup ∧
    ((generate_question_set ["python", "react"] 5 initialBanks).1.map
        QItem.tech).all
      (fun t => ["python", "react", "general"].contains t) = true := by
  decide

/-- C2: the consent-state user turn never reaches the consent-setting
branch of `collect_candidate_info`: once all seven fields are filled the
profile finalizes, so `main` routes the next turn to question generation
and the session consent flag stays `false` even when the answer is
`"yes"` (it is controlled solely by the sidebar toggle).  Concretely,
after a complete collection dialogue the `"yes"` turn leaves consent
`false` and instead generates the five questions. -/
theorem c2_consent_answer_is_ignored :
    (runTurns extAccepting
        ["John Doe", "john@example.com", "+14155552671", "3.5",
         "Backend Engineer", "Pune, India", "Python, React"]).profile =
      { full_name := some "John Doe", email := some "john@example.com",
        phone := some "+14155552671", years_experience := some "3.5",
        desired_positions := some "Backend Engineer",
        location := some "Pune, India", tech_stack := some "python, react" } ∧
    (runTurns extAccepting
        ["John Doe", "john@example.com", "+14155552671", "3.5",
         "Backend Engineer", "Pune, India", "Python, React"]).consent = false ∧
    pyLower (pyStrip "yes") = "yes" ∧
    (step extAccepting
        (runTurns extAccepting
          ["John Doe", "john@example.com", "+14155552671", "3.5",
           "Backend Engineer", "Pune, India", "Python, React"]) "yes").consent =
      false ∧
    (step extAccepting
        (runTurns extAccepting
          ["John Doe", "john@example.com", "+14155552671", "3.5",
           "Backend Engineer", "Pune, India", "Python, React"]) "yes").questions.length =
      5 := by
  decide

/-- C3 counterexample: the input `"ab"` has nonzero stripped length yet the
full-name collection step rejects it with the re-prompt and stores
nothing, contradicting "every input whose stripped length is nonzero is
accepted and stored". -/
theorem c3_counterexample_two_char_name_rejected :
    pyStrip "ab" ≠ "" ∧
    (collect_candidate_info extAccepting "ab" emptyProfile false).2.1.full_name = none ∧
    (collect_candidate_info extAccepting "ab" emptyProfile false).1 =
      "Please provide your full name (at least 3 characters)." := by
  decide

/-- C3 (amended): per-field collection validation of the text fields uses
length thresholds on the stripped input, not emptiness: `full_name` is
stored iff the stripped length is at least 3, and `desired_positions` and
`location` are stored iff the stripped length is at least 2 (inputs below
the threshold are rejected with a re-prompt and nothing is stored). -/
theorem c3_collection_thresholds (ext : Ext) (input : String) (profile : RawProfile)
    (consent : Bool) :
    (profile.full_name = none →
      ((collect_candidate_info ext input profile consent).2.1.full_name ≠ none ↔
        3 ≤ (pyStrip input).length)) ∧
    (∀ fn em ph yr, profile.full_name = some fn → profile.email = some em →
      profile.phone = some ph → profile.years_experience = some yr →
      profile.desired_positions = none →
      ((collect_candidate_info ext input profile consent).2.1.desired_positions ≠ none ↔
        2 ≤ (pyStrip input).length)) ∧
    (∀ fn em ph yr dp, profile.full_name = some fn → profile.email = some em →
      profile.phone = some ph → profile.years_experience = some yr →
      profile.desired_positions = some dp → profile.location = none →
      ((collect_candidate_info ext input profile consent).2.1.location ≠ none ↔
        2 ≤ (pyStrip input).length)) := by
  refine ⟨?_, ?_, ?_⟩
  · intro h
    simp only [collect_candidate_info, h]
    by_cases hlen : (pyStrip input).length < 3
    · rw [if_pos hlen]
      simp [h]
      omega
    · rw [if_neg hlen]
      simp
      omega
  · intro fn em ph yr hfn hem hph hyr hdp
    simp only [collect_candidate_info, hfn, hem, hph, hyr, hdp]
    by_cases hlen : (pyStrip input).length < 2
    · rw [if_pos hlen]
      simp [hdp]
      omega
    · rw [if_neg hlen]
      simp
      omega
  · intro fn em ph yr dp hfn hem hph hyr hdp hloc
    simp only [collect_candidate_info, hfn, hem, hph, hyr, hdp, hloc]
    by_cases hlen : (pyStrip input).length < 2
    · rw [if_pos hlen]
      simp [hloc]
      omega
    · rw [if_neg hlen]
      simp
      omega

/-- C3 witness: the thresholds at concrete inputs: `"John"` is stored as a
full name, and on suitably filled profiles a two-character input is stored
for `desired_positions` and for `location`. -/
theorem c3_collection_thresholds_witness :
    ((collect_candidate_info extAccepting "John" emptyProfile false).2.1.full_name ≠
        none ↔ 3 ≤ (pyStrip "John").length) ∧
    ((collect_candidate_info extAccepting "QA"
          { full_name := some "John Doe", email := some "j@x.co",
            phone := some "+14155552671", years_experience := some "3" }
          false).2.1.desired_positions ≠ none ↔ 2 ≤ (pyStrip "QA").length) ∧
    ((collect_candidate_info extAccepting "NY"
          { full_name := some "John Doe", email := some "j@x.co",
            phone := some "+14155552671", years_experience := some "3",
            desired_positions := some "QA" }
          false).2.1.location ≠ none ↔ 2 ≤ (pyStrip "NY").length) := by
  refine ⟨?_, ?_, ?_⟩
  · exact (c3_collection_thresholds extAccepting "John" emptyProfile false).1 rfl
  · exact (c3_collection_thresholds extAccepting "QA"
      { full_name := some "John Doe", email := some "j@x.co",
        phone := some "+14155552671", years_experience := some "3" }
      false).2.1 "John Doe" "j@x.co" "+14155552671" "3" rfl rfl rfl rfl rfl
  · exact (c3_collection_thresholds extAccepting "NY"
      { full_name := some "John Doe", email := some "j@x.co",
        phone := some "+14155552671", years_experience := some "3",
        desired_positions := some "QA" }
      false).2.2 "John Doe" "j@x.co" "+14155552671" "3" "QA" rfl rfl rfl rfl rfl rfl

/-- C6 counterexample: `"nan"` parses as a float that is not a number in
the closed interval `[0, 60]`, yet both the collection step and the
finalization range check accept it (NaN compares false against both
bounds), contradicting "accepts exactly the inputs that parse as a
floating-point number in [0, 60]". -/
theorem c6_counterexample_nan_accepted :
    pyFloatOfString "nan" = some PyFloat.nan ∧
    isNumberInClosed0to60 PyFloat.nan = false ∧
    yearsCollectAccepts "nan" = true ∧
    yearsInRange (yearsFromRaw (some "nan")) = true := by
  decide

theorem yearsInRange_iff (v : PyFloat) :
    yearsInRange v = true ↔ (isNumberInClosed0to60 v = true ∨ v = PyFloat.nan) := by
  cases v with
  | finite q =>
    simp only [yearsInRange, pyLt, isNumberInClosed0to60, Bool.and_eq_true,
      Bool.not_eq_true', decide_eq_false_iff_not, decide_eq_true_eq, not_lt]
    constructor
    · intro h
      exact Or.inl ⟨h.1, h.2⟩
    · intro h
      rcases h with ⟨h1, h2⟩ | h
      · exact ⟨h1, h2⟩
      · cases h
  | nan => decide
  | inf => decide
  | ninf => decide

theorem pyFloatOfString_pyStrip (s : String) :
    pyFloatOfString (pyStrip s) = pyFloatOfString s := by
  unfold pyFloatOfString
  rw [show (pyStrip s).data = stripChars s.data from rfl, stripChars_idem]

/-- C6 (amended): the years validator accepts exactly the inputs that parse
as a float which is either a number in the closed interval `[0, 60]` or
NaN (which compares false against both bounds); `"3.5"` is accepted as
3.5, `"70"` is rejected, and an unparseable input such as `"abc"` is
mapped to the sentinel `-1.0` during finalization, which the range check
rejects. -/
theorem c6_years_validator_characterisation :
    (∀ s : String, yearsCollectAccepts s = true ↔
      (∃ v, pyFloatOfString s = some v ∧
        (isNumberInClosed0to60 v = true ∨ v = PyFloat.nan))) ∧
    (∀ s : String,
      yearsFromRaw (some s) = (pyFloatOfString s).getD (PyFloat.finite (-1))) ∧
    (∀ v, yearsInRange v = true ↔
      (isNumberInClosed0to60 v = true ∨ v = PyFloat.nan)) ∧
    yearsCollectAccepts "3.5" = true ∧
    pyFloatOfString "3.5" = some (PyFloat.finite (mkRat 7 2)) ∧
    yearsCollectAccepts "70" = false ∧
    yearsCollectAccepts "abc" = false ∧
    yearsFromRaw (some "abc") = PyFloat.finite (-1) ∧
    yearsInRange (PyFloat.finite (-1)) = false := by
  refine ⟨?_, ?_, yearsInRange_iff, by decide, by decide, by decide, by decide,
    by decide, by decide⟩
  · intro s
    unfold yearsCollectAccepts
    cases h : pyFloatOfString s with
    | none => simp [h]
    | some v =>
      simp only [h, Option.some.injEq]
      constructor
      · intro hv
        exact ⟨v, rfl, (yearsInRange_iff v).mp hv⟩
      · intro hv
        obtain ⟨v', hv', hp⟩ := hv
        cases hv'
        exact (yearsInRange_iff v).mpr hp
  · intro s
    unfold yearsFromRaw
    rw [show pyStrip ((some s).getD "0") = pyStrip s from rfl, pyFloatOfString_pyStrip]
    cases h : pyFloatOfString s with
    | none => rfl
    | some v => rfl

/-! ## State-machine lemmas -/

theorem greet_ended (w : World) : (greet w).ended = w.ended := by
  unfold greet
  split <;> rfl

theorem greet_profile (w : World) : (greet w).profile = w.profile := by
  unfold greet
  split <;> rfl

theorem greet_consent (w : World) : (greet w).consent = w.consent := by
  unfold greet
  split <;> rfl

theorem greet_questions (w : World) : (greet w).questions = w.questions := by
  unfold greet
  split <;> rfl

theorem greet_saved (w : World) : (greet w).saved = w.saved := by
  unfold greet
  split <;> rfl

theorem greet_of_messages_ne {w : World} (h : w.messages ≠ []) : greet w = w := by
  unfold greet
  rw [if_neg h]

theorem is_end_keyword_empty : is_end_keyword "" = false := by decide

theorem step_of_ended (ext : Ext) (w : World) (input : String)
    (hended : w.ended = true) (hmsg : w.messages ≠ []) :
    step ext w input = w := by
  simp only [step, greet_of_messages_ne hmsg, hended]
  simp

theorem step_end_keyword (ext : Ext) (w : World) (input : String)
    (hended : w.ended = false) (hkw : is_end_keyword input = true) :
    step ext w input =
      endConversationBlock (addMsg (greet w) "user" input)
        (finalizeProfile ext w.profile) := by
  have hne : input ≠ "" := by
    intro he
    rw [he, is_end_keyword_empty] at hkw
    cases hkw
  simp only [step]
  rw [greet_ended, hended, if_neg (by simp), if_neg hne, if_pos hkw]
  show endConversationBlock (addMsg (greet w) "user" input)
      (finalizeProfile ext (addMsg (greet w) "user" input).profile) = _
  rw [show (addMsg (greet w) "user" input).profile = w.profile from greet_profile w]

theorem addMsg_fields (w : World) (r c : String) :
    (addMsg w r c).ended = w.ended ∧ (addMsg w r c).profile = w.profile ∧
    (addMsg w r c).consent = w.consent ∧ (addMsg w r c).questions = w.questions ∧
    (addMsg w r c).saved = w.saved ∧
    (addMsg w r c).messages = w.messages ++ [(r, c)] :=
  ⟨rfl, rfl, rfl, rfl, rfl, rfl⟩

theorem endConversationBlock_ended (w : World) (p : Option Profile) :
    (endConversationBlock w p).ended = true := by
  unfold endConversationBlock
  cases p with
  | none => rfl
  | some pr =>
    by_cases h : w.consent = true
    · simp [h, addMsg]
    · simp [h, addMsg]

theorem endConversationBlock_messages (w : World) (p : Option Profile) :
    (endConversationBlock w p).messages =
      w.messages ++ [("assistant", closingMessage)] := by
  unfold endConversationBlock
  cases p with
  | none => rfl
  | some pr =>
    by_cases h : w.consent = true
    · simp [h, addMsg]
    · simp [h, addMsg]

theorem endConversationBlock_saved (w : World) (p : Option Profile) :
    (endConversationBlock w p).saved = w.saved ++
      (match p with
       | some pr =>
         if w.consent then
           [⟨pr, w.messages ++ [("assistant", closingMessage)], w.questions⟩]
         else []
       | none => []) := by
  unfold endConversationBlock
  cases p with
  | none => simp [addMsg]
  | some pr =>
    by_cases h : w.consent = true
    · simp [h, addMsg]
    · simp [h, addMsg]

theorem endConversationBlock_profile (w : World) (p : Option Profile) :
    (endConversationBlock w p).profile = w.profile := by
  unfold endConversationBlock
  cases p with
  | none => rfl
  | some pr =>
    by_cases h : w.consent = true
    · simp [h, addMsg]
    · simp [h, addMsg]

theorem endConversationBlock_consent (w : World) (p : Option Profile) :
    (endConversationBlock w p).consent = w.consent := by
  unfold endConversationBlock
  cases p with
  | none => rfl
  | some pr =>
    by_cases h : w.consent = true
    · simp [h, addMsg]
    · simp [h, addMsg]

theorem endConversationBlock_questions (w : World) (p : Option Profile) :
    (endConversationBlock w p).questions = w.questions := by
  unfold endConversationBlock
  cases p with
  | none => rfl
  | some pr =>
    by_cases h : w.consent = true
    · simp [h, addMsg]
    · simp [h, addMsg]

/-- C7: from any non-ended state, an end-keyword turn is routed before any
other handling: the conversation records the user message and the closing
message, the session is marked ended, the profile, consent, and question
state are untouched, and a transcript record is persisted exactly when
consent was granted and the profile finalizes. -/
theorem c7_end_keyword_ends_and_persists_iff (ext : Ext) (w : World)
    (input : String) (hended : w.ended = false)
    (hkw : is_end_keyword input = true) :
    (step ext w input).ended = true ∧
    (step ext w input).messages =
      (greet w).messages ++ [("user", input), ("assistant", closingMessage)] ∧
    (step ext w input).saved = w.saved ++
      (match finalizeProfile ext w.profile with
       | some pr =>
         if w.consent then
           [⟨pr, (greet w).messages ++ [("user", input), ("assistant", closingMessage)],
             w.questions⟩]
         else []
       | none => []) ∧
    (step ext w input).profile = w.profile ∧
    (step ext w input).consent = w.consent ∧
    (step ext w input).questions = w.questions := by
  rw [step_end_keyword ext w input hended hkw]
  set wm := addMsg (greet w) "user" input with hwm
  have hm : wm.messages = (greet w).messages ++ [("user", input)] := rfl
  have hsv : wm.saved = w.saved := greet_saved w
  have hcs : wm.consent = w.consent := greet_consent w
  have hqs : wm.questions = w.questions := greet_questions w
  have hpf : wm.profile = w.profile := greet_profile w
  refine ⟨endConversationBlock_ended _ _, ?_, ?_, ?_, ?_, ?_⟩
  · rw [endConversationBlock_messages, hm, List.append_assoc]
    rfl
  · rw [endConversationBlock_saved, hsv, hm, hcs, hqs]
    simp
  · rw [endConversationBlock_profile]
    exact hpf
  · rw [endConversationBlock_consent]
    exact hcs
  · rw [endConversationBlock_questions]
    exact hqs

/-- C7 witness: ending the demo session (complete profile, consent granted)
with `"exit"` appends the user and closing messages, marks it ended,
leaves profile, consent and questions untouched, and persists exactly one
record. -/
theorem c7_witness :
    ((step extAccepting demoWorld "exit").ended = true ∧
    (step extAccepting demoWorld "exit").messages =
      (greet demoWorld).messages ++ [("user", "exit"), ("assistant", closingMessage)] ∧
    (step extAccepting demoWorld "exit").saved = demoWorld.saved ++
      (match finalizeProfile extAccepting demoWorld.profile with
       | some pr =>
         if demoWorld.consent then
           [⟨pr, (greet demoWorld).messages ++
              [("user", "exit"), ("assistant", closingMessage)],
             demoWorld.questions⟩]
         else []
       | none => []) ∧
    (step extAccepting demoWorld "exit").profile = demoWorld.profile ∧
    (step extAccepting demoWorld "exit").consent = demoWorld.consent ∧
    (step extAccepting demoWorld "exit").questions = demoWorld.questions) ∧
    (step extAccepting demoWorld "exit").saved.length = 1 :=
  ⟨c7_end_keyword_ends_and_persists_iff extAccepting demoWorld "exit" rfl (by decide),
   by decide⟩

/-- C8: the ended flag is absorbing: a turn on an ended session (one that
has at least its closing message) changes nothing at all, and in
particular sending an end keyword twice in a row performs the second turn
as a no-op, so persistence can happen at most once. -/
theorem c8_ended_absorbing :
    (∀ (ext : Ext) (w : World) (input : String),
      w.ended = true → w.messages ≠ [] → step ext w input = w) ∧
    (∀ (ext : Ext) (w : World) (input : String),
      w.ended = false → is_end_keyword input = true →
        step ext (step ext w input) input = step ext w input) := by
  refine ⟨step_of_ended, ?_⟩
  intro ext w input hended hkw
  have h1 : (step ext w input).ended = true := by
    rw [step_end_keyword ext w input hended hkw]
    exact endConversationBlock_ended _ _
  have h2 : (step ext w input).messages ≠ [] := by
    rw [step_end_keyword ext w input hended hkw, endConversationBlock_messages]
    simp
  exact step_of_ended ext _ input h1 h2

/-- C8 witness: a turn on the concrete ended session is the identity, and
a second `"exit"` after ending the demo session changes nothing (so only
the first `"exit"` persisted). -/
theorem c8_witness :
    step extAccepting endedWorld "hello" = endedWorld ∧
    step extAccepting (step extAccepting demoWorld "exit") "exit" =
      step extAccepting demoWorld "exit" ∧
    (step extAccepting (step extAccepting demoWorld "exit") "exit").saved.length = 1 :=
  ⟨c8_ended_absorbing.1 extAccepting endedWorld "hello" rfl (by decide),
   c8_ended_absorbing.2 extAccepting demoWorld "exit" rfl (by decide),
   by decide⟩

/-! ## Shuffle is a permutation -/

theorem cons_perm_set {α : Type} {x b : α} :
    ∀ {xs : List α} {j : Nat}, xs.get? j = some b →
      List.Perm (x :: xs) (b :: xs.set j x) := by
  intro xs
  induction xs with
  | nil => intro j h; simp at h
  | cons y t ih =>
    intro j h
    cases j with
    | zero =>
      rw [List.get?_cons_zero, Option.some.injEq] at h
      rw [← h]
      simp only [List.set_cons_zero]
      exact List.Perm.swap y x t
    | succ j =>
      rw [List.get?_cons_succ] at h
      simp only [List.set_cons_succ]
      refine List.Perm.trans (List.Perm.swap y x t) ?_
      refine List.Perm.trans ((ih h).cons y) ?_
      exact List.Perm.swap b y (t.set j x)

theorem listSwap_perm {α : Type} : ∀ (xs : List α) (i j : Nat),
    List.Perm (listSwap i j xs) xs := by
  intro xs
  induction xs with
  | nil =>
    intro i j
    exact List.Perm.refl _
  | cons x t ih =>
    intro i j
    unfold listSwap
    cases i with
    | zero =>
      cases j with
      | zero => exact List.Perm.refl _
      | succ j =>
        simp only [List.get?_cons_zero, List.get?_cons_succ]
        cases h : t.get? j with
        | none => exact List.Perm.refl _
        | some b =>
          show List.Perm (((x :: t).set 0 b).set (j + 1) x) (x :: t)
          simp only [List.set_cons_zero, List.set_cons_succ]
          exact (cons_perm_set h).symm
    | succ i =>
      cases j with
      | zero =>
        simp only [List.get?_cons_succ, List.get?_cons_zero]
        cases h : t.get? i with
        | none => exact List.Perm.refl _
        | some a =>
          show List.Perm (((x :: t).set (i + 1) x).set 0 a) (x :: t)
          simp only [List.set_cons_succ, List.set_cons_zero]
          exact (cons_perm_set h).symm
      | succ j =>
        simp only [List.get?_cons_succ]
        cases hi : t.get? i with
        | none => exact List.Perm.refl _
        | some a =>
          cases hj : t.get? j with
          | none => exact List.Perm.refl _
          | some b =>
            show List.Perm (((x :: t).set (i + 1) b).set (j + 1) a) (x :: t)
            simp only [List.set_cons_succ]
            have h2 := ih i j
            unfold listSwap at h2
            rw [hi, hj] at h2
            exact h2.cons x

theorem shuffleGo_perm {α : Type} :
    ∀ (k : Nat) (xs : List α) (s : MTState),
      List.Perm (shuffleGo k xs s).1 xs := by
  intro k
  induction k with
  | zero =>
    intro xs s
    exact List.Perm.refl _
  | succ k ih =>
    intro xs s
    rw [shuffleGo]
    cases hr : randbelow (k + 2) s with
    | mk j s2 => exact (ih _ _).trans (listSwap_perm xs (k + 1) j)

theorem pyShuffle_mem {α : Type} {x : α} {xs : List α} {s : MTState}
    (h : x ∈ (pyShuffle xs s).1) : x ∈ xs := by
  unfold pyShuffle at h
  exact (shuffleGo_perm _ xs s).subset h

/-! ## Invariants of the question-picking loops -/

theorem pickFromBank_inv (tech : String) (total : Nat) :
    ∀ (bank : List String) (picked : List QItem) (used : List String),
      (∀ it ∈ picked, it.question ∈ used) →
      (picked.map QItem.question).Nodup →
      picked.length ≤ total →
      (∀ it ∈ (pickFromBank tech total bank picked used).1,
          it.question ∈ (pickFromBank tech total bank picked used).2) ∧
      ((pickFromBank tech total bank picked used).1.map QItem.question).Nodup ∧
      (pickFromBank tech total bank picked used).1.length ≤ total ∧
      (∀ q ∈ used, q ∈ (pickFromBank tech total bank picked used).2) := by
  intro bank
  induction bank with
  | nil =>
    intro picked used h1 h2 h3
    exact ⟨h1, h2, h3, fun q hq => hq⟩
  | cons q qs ih =>
    intro picked used h1 h2 h3
    rw [pickFromBank]
    by_cases hfull : picked.length ≥ total
    · rw [if_pos hfull]
      exact ⟨h1, h2, h3, fun q hq => hq⟩
    · rw [if_neg hfull]
      by_cases hused : q ∈ used
      · rw [if_pos hused]
        exact ih picked used h1 h2 h3
      · rw [if_neg hused]
        obtain ⟨g1, g2, g3, g4⟩ := ih (picked ++ [⟨tech, q⟩]) (q :: used) (by
            intro it hit
            rcases List.mem_append.mp hit with h | h
            · exact List.mem_cons_of_mem _ (h1 it h)
            · rw [List.mem_singleton.mp h]
              exact List.mem_cons_self _ _) (by
            rw [List.map_append]
            refine List.Nodup.append h2 (by simp) ?_
            intro a ha hb
            rw [List.map_singleton, List.mem_singleton] at hb
            subst hb
            obtain ⟨it, hit, hq⟩ := List.mem_map.mp ha
            exact hused (hq ▸ h1 it hit)) (by
            rw [List.length_append, List.length_singleton]
            omega)
        exact ⟨g1, g2, g3, fun q2 hq2 => g4 q2 (List.mem_cons_of_mem _ hq2)⟩

theorem techLoop_inv (total perTech : Nat) :
    ∀ (techs : List String) (banks : QBanks) (s : MTState)
      (picked : List QItem) (used : List String),
      (∀ it ∈ picked, it.question ∈ used) →
      (picked.map QItem.question).Nodup →
      picked.length ≤ total →
      (∀ it ∈ (techLoop total perTech techs banks s picked used).1,
          it.question ∈ (techLoop total perTech techs banks s picked used).2.1) ∧
      ((techLoop total perTech techs banks s picked used).1.map QItem.question).Nodup ∧
      (techLoop total perTech techs banks s picked used).1.length ≤ total := by
  intro techs
  induction techs with
  | nil =>
    intro banks s picked used h1 h2 h3
    exact ⟨h1, h2, h3⟩
  | cons tech rest ih =>
    intro banks s picked used h1 h2 h3
    simp only [techLoop]
    cases hsh : pyShuffle (questionsForTech banks.techQuestions tech) s with
    | mk bank2 s2 =>
      cases hpk : pickFromBank tech total (bank2.take perTech) picked used with
      | mk picked2 used2 =>
        have hinv := pickFromBank_inv tech total (bank2.take perTech) picked used h1 h2 h3
        rw [hpk] at hinv
        by_cases hfull : picked2.length ≥ total
        · rw [if_pos hfull]
          exact ⟨hinv.1, hinv.2.1, hinv.2.2.1⟩
        · rw [if_neg hfull]
          exact ih _ s2 picked2 used2 hinv.1 hinv.2.1 hinv.2.2.1

theorem genericLoop_inv :
    ∀ (qs : List String) (remaining : Nat) (picked : List QItem) (used : List String),
      (∀ it ∈ picked, it.question ∈ used) →
      (picked.map QItem.question).Nodup →
      (∀ it ∈ (genericLoop qs remaining picked used).1,
          it.question ∈ (genericLoop qs remaining picked used).2) ∧
      ((genericLoop qs remaining picked used).1.map QItem.question).Nodup ∧
      (genericLoop qs remaining picked used).1.length ≤ picked.length + remaining ∧
      (∀ it ∈ (genericLoop qs remaining picked used).1,
          it ∈ picked ∨ (it.tech = "general" ∧ it.question ∈ qs)) := by
  intro qs
  induction qs with
  | nil =>
    intro remaining picked used h1 h2
    refine ⟨h1, h2, ?_, fun it hit => Or.inl hit⟩
    show picked.length ≤ picked.length + remaining
    omega
  | cons q qs ih =>
    intro remaining picked used h1 h2
    rw [genericLoop]
    by_cases hrem : remaining = 0
    · rw [if_pos hrem]
      refine ⟨h1, h2, ?_, fun it hit => Or.inl hit⟩
      show picked.length ≤ picked.length + remaining
      omega
    · rw [if_neg hrem]
      by_cases hused : q ∈ used
      · rw [if_pos hused]
        obtain ⟨g1, g2, g3, g4⟩ := ih remaining picked used h1 h2
        refine ⟨g1, g2, g3, ?_⟩
        intro it hit
        rcases g4 it hit with h | h
        · exact Or.inl h
        · exact Or.inr ⟨h.1, List.mem_cons_of_mem _ h.2⟩
      · rw [if_neg hused]
        obtain ⟨g1, g2, g3, g4⟩ :=
          ih (remaining - 1) (picked ++ [⟨"general", q⟩]) (q :: used) (by
            intro it hit
            rcases List.mem_append.mp hit with h | h
            · exact List.mem_cons_of_mem _ (h1 it h)
            · rw [List.mem_singleton.mp h]
              exact List.mem_cons_self _ _) (by
            rw [List.map_append]
            refine List.Nodup.append h2 (by simp) ?_
            intro a ha hb
            rw [List.map_singleton, List.mem_singleton] at hb
            subst hb
            obtain ⟨it, hit, hq⟩ := List.mem_map.mp ha
            exact hused (hq ▸ h1 it hit))
        refine ⟨g1, g2, ?_, ?_⟩
        · rw [List.length_append, List.length_singleton] at g3
          omega
        · intro it hit
          rcases g4 it hit with h | h
          · rcases List.mem_append.mp h with h | h
            · exact Or.inl h
            · rw [List.mem_singleton.mp h]
              exact Or.inr ⟨rfl, List.mem_cons_self _ _⟩
          · exact Or.inr ⟨h.1, List.mem_cons_of_mem _ h.2⟩

/-- C9: for every technology list and every total, from any bank state,
`generate_question_set` returns without error a list of at most `total`
items whose question texts are pairwise distinct (the `used` set and the
`max(1, len(techs))` guard make this total); and with an empty technology
list every returned item is tagged `"general"` and drawn from the generic
question pool. -/
theorem c9_generate_question_set_safe :
    (∀ (techs : List String) (total : Nat) (banks : QBanks),
      (generate_question_set techs total banks).1.length ≤ total ∧
      ((generate_question_set techs total banks).1.map QItem.question).Nodup) ∧
    (∀ total : Nat,
      ((generate_question_set [] total initialBanks).1.all
        (fun it => it.tech == "general" && GENERIC_QUESTIONS.contains it.question)) =
        true) := by
  constructor
  · intro techs total banks
    simp only [generate_question_set]
    cases htl : techLoop total (max 1 (total / max 1 techs.length)) techs banks
        mtFresh42 [] [] with
    | mk picked rest =>
      cases rest with
      | mk used rest2 =>
        cases rest2 with
        | mk banks2 s2 =>
          have hinv := techLoop_inv total (max 1 (total / max 1 techs.length)) techs
            banks mtFresh42 [] [] (by simp) (by simp) (by simp)
          rw [htl] at hinv
          obtain ⟨t1, t2, t3⟩ := hinv
          by_cases hlt : picked.length < total
          · rw [if_pos hlt]
            cases hg : pyShuffle banks2.generic s2 with
            | mk gen2 s3 =>
              cases hgl : genericLoop gen2 (total - picked.length) picked used with
              | mk picked2 used2 =>
                have ginv := genericLoop_inv gen2 (total - picked.length) picked used
                  t1 t2
                rw [hgl] at ginv
                refine ⟨?_, ginv.2.1⟩
                have hlen : picked2.length ≤ picked.length + (total - picked.length) :=
                  ginv.2.2.1
                have ht3 : picked.length ≤ total := t3
                show picked2.length ≤ total
                omega
          · rw [if_neg hlt]
            exact ⟨t3, t2⟩
  · intro total
    cases total with
    | zero => decide
    | succ n =>
      simp only [generate_question_set, techLoop, List.length_nil, Nat.sub_zero]
      rw [if_pos (Nat.succ_pos n)]
      cases hg : pyShuffle initialBanks.generic mtFresh42 with
      | mk gen2 s3 =>
        cases hgl : genericLoop gen2 (n + 1) [] [] with
        | mk picked2 used2 =>
          have ginv := genericLoop_inv gen2 (n + 1) [] [] (by simp) (by simp)
          rw [hgl] at ginv
          rw [List.all_eq_true]
          intro it hit
          have hit2 : it ∈ picked2 := hit
          rcases ginv.2.2.2 it hit2 with h | h
          · simp at h
          · have hq : it.question ∈ GENERIC_QUESTIONS := by
              have hmem : it.question ∈ (pyShuffle initialBanks.generic mtFresh42).1 := by
                rw [hg]
                exact h.2
              exact pyShuffle_mem hmem
            rw [Bool.and_eq_true, beq_iff_eq]
            exact ⟨h.1, List.elem_iff.mpr hq⟩

end TalentScout



